import Mathlib

/-!
Verification of The-Pheonix timetable system.

The repository ships the Next.js frontend (`Frontend/src/...`) and docs; the
backend scheduler (assignment engine, conflict validator, scorer, variation
generator, re-optimizer) is referenced by the frontend via HTTP but its code is
not part of the checked-in sources.  Definitions for those components are
modelled from the specification and marked as such; frontend behaviour
(`generateTimetable` in the generate page, `PreviewCard`, `escapeCsv`) is
translated directly from the TypeScript source.
-/

namespace Phoenix

/-- A teacher record: identifier and weekly credit capacity
(`faculty.max_credits` in the database schema). -/
structure Teacher where
  id : Nat
  maxCredits : Nat
deriving DecidableEq, Repr

/-- A (day, period) coordinate in the scheduling grid. -/
structure Slot where
  day : Nat
  period : Nat
deriving DecidableEq, Repr

/-- An atomic scheduling decision: (ClassGroup, Subject, Teacher, TimeSlot). -/
structure Assignment where
  classGroup : Nat
  subject : Nat
  teacher : Nat
  day : Nat
  period : Nat
deriving DecidableEq, Repr

/-- One unit of required credit for a (ClassGroup, Subject) pair, with the
pre-resolved list of compatible teacher ids. -/
structure WorkUnit where
  classGroup : Nat
  subject : Nat
  candidates : List Nat
deriving DecidableEq, Repr

/-- Capacity lookup: max weekly credits of teacher `t`, `0` if unknown. -/
def maxCreditsOf (teachers : List Teacher) (t : Nat) : Nat :=
  match teachers.find? (fun te => te.id == t) with
  | some te => te.maxCredits
  | none => 0

/-- Number of assignments in `T` referencing teacher `t`. -/
def teacherLoad (T : List Assignment) (t : Nat) : Nat :=
  T.countP (fun a => a.teacher == t)

/-- Modelled from the spec: the backend Assignment Engine's feasibility test is
not under src/.  A (teacher, slot) pair is feasible for a work unit when the
teacher is not already booked in that slot (invariant 1), the class is not
already booked in that slot (invariant 2), and the teacher's load is still
below capacity (invariant 4). -/
def feasible (teachers : List Teacher) (T : List Assignment)
    (u : WorkUnit) (t : Nat) (s : Slot) : Bool :=
  decide (∀ a ∈ T, ¬(a.teacher = t ∧ a.day = s.day ∧ a.period = s.period)) &&
  decide (∀ a ∈ T, ¬(a.classGroup = u.classGroup ∧ a.day = s.day ∧ a.period = s.period)) &&
  decide (teacherLoad T t < maxCreditsOf teachers t)

/-- All (teacher, slot) candidate pairs for a unit, teachers outermost. -/
def candidatePairs (u : WorkUnit) (slots : List Slot) : List (Nat × Slot) :=
  (u.candidates.map (fun t => slots.map (fun s => (t, s)))).flatten

/-- Modelled from the spec: the backend engine's placement step is not under
src/.  First-fit (legacy strategy, §4.3): place the unit in the first feasible
(teacher, slot) pair; an unplaceable unit is skipped (best-effort). -/
def placeUnit (teachers : List Teacher) (slots : List Slot)
    (T : List Assignment) (u : WorkUnit) : List Assignment :=
  match (candidatePairs u slots).find? (fun p => feasible teachers T u p.1 p.2) with
  | some p => ⟨u.classGroup, u.subject, p.1, p.2.day, p.2.period⟩ :: T
  | none => T

/-- Modelled from the spec: the backend Assignment Engine (`Generate`, §4.3) is
not under src/.  Generation folds first-fit placement over the work units,
starting from the empty timetable. -/
def generate (teachers : List Teacher) (slots : List Slot)
    (units : List WorkUnit) : List Assignment :=
  units.foldl (fun T u => placeUnit teachers slots T u) []

/-- No-teacher-clash invariant: no two distinct assignments give the same
teacher the same (day, period). -/
def NoTeacherClash (T : List Assignment) : Prop :=
  ∀ a ∈ T, ∀ b ∈ T, a ≠ b → a.teacher = b.teacher →
    ¬(a.day = b.day ∧ a.period = b.period)

/-- The first conjunct of feasibility: the chosen teacher is free in the
chosen slot. -/
theorem feasible_teacher_free {teachers T u t s}
    (h : feasible teachers T u t s = true) :
    ∀ a ∈ T, ¬(a.teacher = t ∧ a.day = s.day ∧ a.period = s.period) := by
  unfold feasible at h
  simp only [Bool.and_eq_true, decide_eq_true_eq] at h
  exact h.1.1

/-- The capacity conjunct of feasibility. -/
theorem feasible_capacity {teachers T u t s}
    (h : feasible teachers T u t s = true) :
    teacherLoad T t < maxCreditsOf teachers t := by
  unfold feasible at h
  simp only [Bool.and_eq_true, decide_eq_true_eq] at h
  exact h.2

/-- `placeUnit` preserves the no-teacher-clash invariant. -/
theorem noTeacherClash_placeUnit {teachers slots T u}
    (hT : NoTeacherClash T) :
    NoTeacherClash (placeUnit teachers slots T u) := by
  unfold placeUnit
  cases hf : (candidatePairs u slots).find? (fun p => feasible teachers T u p.1 p.2) with
  | none => exact hT
  | some p =>
    have hfeas : feasible teachers T u p.1 p.2 = true := by
      have := List.find?_some hf
      exact this
    intro a ha b hb hne hteq
    rcases List.mem_cons.mp ha with ha' | ha' <;>
      rcases List.mem_cons.mp hb with hb' | hb'
    · exact absurd (ha'.trans hb'.symm) hne
    · intro hcontra
      subst ha'
      exact feasible_teacher_free hfeas b hb'
        ⟨hteq.symm, hcontra.1.symm, hcontra.2.symm⟩
    · intro hcontra
      subst hb'
      exact feasible_teacher_free hfeas a ha'
        ⟨hteq, hcontra.1, hcontra.2⟩
    · exact hT a ha' b hb' hne hteq

/-- Per-teacher capacity invariant. -/
def WithinCapacity (teachers : List Teacher) (T : List Assignment) : Prop :=
  ∀ t, teacherLoad T t ≤ maxCreditsOf teachers t

/-- `placeUnit` preserves the capacity invariant. -/
theorem withinCapacity_placeUnit {teachers slots T u}
    (hT : WithinCapacity teachers T) :
    WithinCapacity teachers (placeUnit teachers slots T u) := by
  unfold placeUnit
  cases hf : (candidatePairs u slots).find? (fun p => feasible teachers T u p.1 p.2) with
  | none => exact hT
  | some p =>
    have hfeas : feasible teachers T u p.1 p.2 = true := by
      have h := List.find?_some hf
      exact h
    intro t
    have hT' := hT t
    unfold teacherLoad at hT' ⊢
    rw [List.countP_cons]
    by_cases hpt : p.1 = t
    · have hlt := feasible_capacity hfeas
      unfold teacherLoad at hlt
      subst hpt
      simp only [beq_self_eq_true, if_true]
      omega
    · simp only [show ((⟨u.classGroup, u.subject, p.1, p.2.day, p.2.period⟩ :
        Assignment).teacher == t) = false by simpa using hpt,
        Bool.false_eq_true, if_false]
      omega

/-- Folding placement over any unit list preserves both invariants. -/
theorem invariants_foldl (teachers : List Teacher) (slots : List Slot) :
    ∀ (units : List WorkUnit) (T : List Assignment),
      NoTeacherClash T → WithinCapacity teachers T →
      NoTeacherClash (units.foldl (fun T u => placeUnit teachers slots T u) T) ∧
      WithinCapacity teachers (units.foldl (fun T u => placeUnit teachers slots T u) T)
  | [], _, h1, h2 => ⟨h1, h2⟩
  | u :: us, T, h1, h2 =>
    invariants_foldl teachers slots us (placeUnit teachers slots T u)
      (noTeacherClash_placeUnit h1) (withinCapacity_placeUnit h2)

/-- The empty timetable has no teacher clash. -/
theorem noTeacherClash_nil : NoTeacherClash [] :=
  fun a ha => absurd ha (List.not_mem_nil a)

/-- The empty timetable is within every capacity. -/
theorem withinCapacity_nil (teachers : List Teacher) : WithinCapacity teachers [] :=
  fun _ => Nat.zero_le _

/-- Claim C1: in every generated timetable, two distinct assignments with the
same teacher occupy different (day, period) slots — no teacher double-booking. -/
theorem generated_no_teacher_double_booking
    (teachers : List Teacher) (slots : List Slot) (units : List WorkUnit)
    (a b : Assignment)
    (ha : a ∈ generate teachers slots units) (hb : b ∈ generate teachers slots units)
    (hab : a ≠ b) (ht : a.teacher = b.teacher) :
    ¬(a.day = b.day ∧ a.period = b.period) :=
  (invariants_foldl teachers slots units [] noTeacherClash_nil
    (withinCapacity_nil teachers)).1 a ha b hb hab ht

/-- Witness for C1 at a concrete input: one teacher, two slots, two work units;
the two generated assignments share the teacher and sit in distinct slots. -/
theorem generated_no_teacher_double_booking_witness :
    ¬((Assignment.mk 0 0 0 0 1).day = (Assignment.mk 0 0 0 0 2).day ∧
      (Assignment.mk 0 0 0 0 1).period = (Assignment.mk 0 0 0 0 2).period) :=
  generated_no_teacher_double_booking [⟨0, 10⟩] [⟨0, 1⟩, ⟨0, 2⟩]
    [⟨0, 0, [0]⟩, ⟨0, 0, [0]⟩] ⟨0, 0, 0, 0, 1⟩ ⟨0, 0, 0, 0, 2⟩
    (by decide) (by decide) (by decide) rfl

/-- Claim C2: in every generated timetable, the number of assignments
referencing a teacher never exceeds that teacher's max weekly credits. -/
theorem generated_teacher_capacity
    (teachers : List Teacher) (slots : List Slot) (units : List WorkUnit) (t : Nat) :
    teacherLoad (generate teachers slots units) t ≤ maxCreditsOf teachers t :=
  (invariants_foldl teachers slots units [] noTeacherClash_nil
    (withinCapacity_nil teachers)).2 t

/-- Modelled from the spec: the backend Scorer (§4.5) is not under src/.
Conflict component of the score: `100 · max 0 (1 − conflicts/total)`,
and `100` for an empty timetable. -/
def conflictComponent (conflicts total : Nat) : ℚ :=
  if total = 0 then 100 else 100 * max 0 (1 - (conflicts : ℚ) / (total : ℚ))

/-- Modelled from the spec: distance of a utilization percentage from the
`optimal` 80–100% band (§4.5). -/
def bandDistance (u : ℚ) : ℚ :=
  if u < 80 then 80 - u else if 100 < u then u - 100 else 0

/-- Modelled from the spec: utilization component of the score, decreasing in
the distance from the 80–100% band. -/
def utilComponent (u : ℚ) : ℚ :=
  max 0 (100 - bandDistance u)

/-- Modelled from the spec: soft-preference satisfaction component,
`100 · satisfied/total` (full marks when no preferences are stated). -/
def prefComponent (satisfied totalPrefs : Nat) : ℚ :=
  if totalPrefs = 0 then 100
  else 100 * (min satisfied totalPrefs : ℚ) / (totalPrefs : ℚ)

/-- Modelled from the spec: the aggregate score (§4.5), an equally weighted
combination of the conflict, utilization and preference components. -/
def score (conflicts total : Nat) (u : ℚ) (satisfied totalPrefs : Nat) : ℚ :=
  (conflictComponent conflicts total + utilComponent u
    + prefComponent satisfied totalPrefs) / 3

theorem bandDistance_nonneg (u : ℚ) : 0 ≤ bandDistance u := by
  unfold bandDistance
  split_ifs <;> linarith

theorem conflictComponent_bounds (c total : Nat) :
    0 ≤ conflictComponent c total ∧ conflictComponent c total ≤ 100 := by
  unfold conflictComponent
  split_ifs with h
  · norm_num
  · constructor
    · have : (0 : ℚ) ≤ max 0 (1 - (c : ℚ) / (total : ℚ)) := le_max_left _ _
      linarith
    · have hc : (0 : ℚ) ≤ (c : ℚ) / (total : ℚ) :=
        div_nonneg (Nat.cast_nonneg c) (Nat.cast_nonneg total)
      have : max 0 (1 - (c : ℚ) / (total : ℚ)) ≤ 1 :=
        max_le (by norm_num) (by linarith)
      linarith

theorem utilComponent_bounds (u : ℚ) :
    0 ≤ utilComponent u ∧ utilComponent u ≤ 100 := by
  unfold utilComponent
  refine ⟨le_max_left _ _, max_le (by norm_num) ?_⟩
  have := bandDistance_nonneg u
  linarith

theorem prefComponent_bounds (s n : Nat) :
    0 ≤ prefComponent s n ∧ prefComponent s n ≤ 100 := by
  unfold prefComponent
  split_ifs with h
  · norm_num
  · have hn : (0 : ℚ) < (n : ℚ) := by
      exact_mod_cast Nat.pos_of_ne_zero h
    have hmin0 : (0 : ℚ) ≤ min (s : ℚ) (n : ℚ) :=
      le_min (Nat.cast_nonneg s) (Nat.cast_nonneg n)
    constructor
    · have := div_nonneg (mul_nonneg (by norm_num : (0:ℚ) ≤ 100) hmin0) hn.le
      simpa [mul_div_assoc] using this
    · have hmin : min (s : ℚ) (n : ℚ) ≤ (n : ℚ) := min_le_right _ _
      rw [mul_div_assoc]
      have : min (s : ℚ) (n : ℚ) / (n : ℚ) ≤ 1 := by
        rw [div_le_one hn]; exact hmin
      nlinarith

theorem conflictComponent_antitone {c c' : Nat} (total : Nat) (h : c ≤ c') :
    conflictComponent c' total ≤ conflictComponent c total := by
  unfold conflictComponent
  split_ifs with ht
  · exact le_refl _
  · have hpos : (0 : ℚ) < (total : ℚ) := by
      exact_mod_cast Nat.pos_of_ne_zero ht
    have hcast : (c : ℚ) ≤ (c' : ℚ) := by exact_mod_cast h
    have hdiv : (c : ℚ) / (total : ℚ) ≤ (c' : ℚ) / (total : ℚ) := by
      gcongr
    have hmax : max 0 (1 - (c' : ℚ) / (total : ℚ)) ≤
        max 0 (1 - (c : ℚ) / (total : ℚ)) :=
      max_le_max (le_refl 0) (by linarith)
    linarith

theorem utilComponent_antitone {u u' : ℚ} (h : bandDistance u ≤ bandDistance u') :
    utilComponent u' ≤ utilComponent u := by
  unfold utilComponent
  exact max_le_max (le_refl 0) (by linarith)

/-- Claim C3: the aggregate score lies in [0, 100]; with all else fixed, more
conflicts never increase the score, and utilization further from the 80–100%
band never increases the score. -/
theorem scorer_bounds_and_monotone
    (c c' total : Nat) (u u' : ℚ) (s n : Nat)
    (hc : c ≤ c') (hu : bandDistance u ≤ bandDistance u') :
    (0 ≤ score c total u s n ∧ score c total u s n ≤ 100) ∧
    score c' total u s n ≤ score c total u s n ∧
    score c total u' s n ≤ score c total u s n := by
  obtain ⟨h1, h2⟩ := conflictComponent_bounds c total
  obtain ⟨h3, h4⟩ := utilComponent_bounds u
  obtain ⟨h5, h6⟩ := prefComponent_bounds s n
  have hmc := conflictComponent_antitone total hc
  have hmu := utilComponent_antitone hu
  unfold score
  refine ⟨⟨?_, ?_⟩, ?_, ?_⟩ <;> linarith

/-- Witness for C3 at concrete values: 0 vs 1 conflicts out of 2 assignments,
utilization 90% (in band) vs 70% (distance 10). -/
theorem scorer_bounds_and_monotone_witness :
    (0 ≤ score 0 2 90 0 0 ∧ score 0 2 90 0 0 ≤ 100) ∧
    score 1 2 90 0 0 ≤ score 0 2 90 0 0 ∧
    score 0 2 70 0 0 ≤ score 0 2 90 0 0 :=
  scorer_bounds_and_monotone 0 1 2 90 70 0 0 (by decide)
    (by unfold bandDistance; norm_num)

/-- Two assignments conflict when they share a slot and either the teacher or
the class group. -/
def conflictsWith (a b : Assignment) : Bool :=
  decide (a.day = b.day ∧ a.period = b.period ∧
    (a.teacher = b.teacher ∨ a.classGroup = b.classGroup))

/-- Modelled from the spec: the backend Conflict Validator's conflict count
(§4.4) is not under src/.  Counts the conflicting unordered pairs. -/
def countConflicts : List Assignment → Nat
  | [] => 0
  | a :: rest => rest.countP (conflictsWith a) + countConflicts rest

/-- A teacher's utilization percentage on a timetable. -/
def utilizationPercent (T : List Assignment) (te : Teacher) : ℚ :=
  (teacherLoad T te.id : ℚ) / (te.maxCredits : ℚ) * 100

/-- Average utilization over the teacher roster. -/
def avgUtilization (teachers : List Teacher) (T : List Assignment) : ℚ :=
  if teachers.isEmpty then 0
  else (teachers.map (fun te => utilizationPercent T te)).sum / (teachers.length : ℚ)

/-- Modelled from the spec: the aggregate score of a whole timetable (§4.5),
fed by its conflict count and average utilization. -/
def timetableScore (teachers : List Teacher) (T : List Assignment) : ℚ :=
  score (countConflicts T) T.length (avgUtilization teachers T) 0 0

/-- All timetables reachable from `T` by moving one assignment to another
slot. -/
def moveCandidates (slots : List Slot) (T : List Assignment) : List (List Assignment) :=
  ((List.range T.length).map (fun i => slots.map (fun s =>
    T.set i { T.getD i ⟨0, 0, 0, 0, 0⟩ with day := s.day, period := s.period }))).flatten

/-- Modelled from the spec: the Re-optimizer's acceptance rule (§4.7) — a move
is accepted only if it does not increase total conflicts and does not decrease
the aggregate score, and strictly improves one of the two. -/
def acceptMove (teachers : List Teacher) (T Tnew : List Assignment) : Bool :=
  decide (countConflicts Tnew ≤ countConflicts T) &&
  decide (timetableScore teachers T ≤ timetableScore teachers Tnew) &&
  (decide (countConflicts Tnew < countConflicts T) ||
   decide (timetableScore teachers T < timetableScore teachers Tnew))

/-- Modelled from the spec: the backend Re-optimizer (§4.7) is not under src/.
Bounded local search: within the fuel budget, repeatedly apply the first
acceptable single-assignment slot move; stop at a local optimum. -/
def reoptimize (teachers : List Teacher) (slots : List Slot) :
    Nat → List Assignment → List Assignment
  | 0, T => T
  | Nat.succ fuel, T =>
    match (moveCandidates slots T).find? (fun Tnew => acceptMove teachers T Tnew) with
    | some Tnew => reoptimize teachers slots fuel Tnew
    | none => T

/-- Claim C4: the re-optimizer never returns a timetable with more conflicts
or a lower aggregate score than its input. -/
theorem reoptimize_no_degradation
    (teachers : List Teacher) (slots : List Slot) (fuel : Nat) (T : List Assignment) :
    countConflicts (reoptimize teachers slots fuel T) ≤ countConflicts T ∧
    timetableScore teachers T ≤ timetableScore teachers (reoptimize teachers slots fuel T) := by
  induction fuel generalizing T with
  | zero => exact ⟨le_refl _, le_refl _⟩
  | succ fuel ih =>
    unfold reoptimize
    cases hf : (moveCandidates slots T).find? (fun Tnew => acceptMove teachers T Tnew) with
    | none => exact ⟨le_refl _, le_refl _⟩
    | some Tnew =>
      have hacc : acceptMove teachers T Tnew = true := by
        have h := List.find?_some hf
        exact h
      unfold acceptMove at hacc
      simp only [Bool.and_eq_true, decide_eq_true_eq] at hacc
      obtain ⟨⟨hconf, hscore⟩, _⟩ := hacc
      obtain ⟨ih1, ih2⟩ := ih Tnew
      exact ⟨le_trans ih1 hconf, le_trans hscore ih2⟩

/-- Workload bucket of the analytics report. -/
inductive WorkloadStatus
  | overloaded
  | optimal
  | good
  | underutilized
deriving DecidableEq, Repr

/-- Modelled from the spec: the backend Workload Analyzer's bucket rule (§3)
is not under src/ (only the `TeacherWorkload` TypeScript interface is):
`>100 → overloaded`, `[80,100] → optimal`, `[50,80) → good`,
`<50 → underutilized`. -/
def workloadStatusOf (u : ℚ) : WorkloadStatus :=
  if 100 < u then .overloaded
  else if 80 ≤ u then .optimal
  else if 50 ≤ u then .good
  else .underutilized

/-- The per-teacher entry of the workload report, mirroring the
`TeacherWorkload` interface of `view.tsx`. -/
structure TeacherWorkload where
  current_load : Nat
  max_capacity : Nat
  utilization_percent : ℚ
  subjects_taught : Nat
  workload_status : WorkloadStatus
deriving DecidableEq, Repr

/-- Modelled from the spec: the backend workload-report builder (§3, §4.5) is
not under src/.  `current_load` counts the teacher's assignments,
`utilization_percent = current_load / max_capacity × 100`, `subjects_taught`
counts distinct subjects, and the status comes from the bucket rule. -/
def teacherWorkloadOf (T : List Assignment) (te : Teacher) : TeacherWorkload :=
  let load := teacherLoad T te.id
  let util := (load : ℚ) / (te.maxCredits : ℚ) * 100
  { current_load := load
    max_capacity := te.maxCredits
    utilization_percent := util
    subjects_taught :=
      ((T.filter (fun a => a.teacher == te.id)).map (fun a => a.subject)).dedup.length
    workload_status := workloadStatusOf util }

theorem workloadStatusOf_spec (u : ℚ) :
    (workloadStatusOf u = .overloaded ↔ 100 < u) ∧
    (workloadStatusOf u = .optimal ↔ 80 ≤ u ∧ u ≤ 100) ∧
    (workloadStatusOf u = .good ↔ 50 ≤ u ∧ u < 80) ∧
    (workloadStatusOf u = .underutilized ↔ u < 50) := by
  unfold workloadStatusOf
  split_ifs with h1 h2 h3
  · exact ⟨⟨fun _ => h1, fun _ => rfl⟩,
      ⟨fun h => absurd h (by decide), fun h => absurd h1 (not_lt.mpr h.2)⟩,
      ⟨fun h => absurd h (by decide),
        fun h => absurd h1 (not_lt.mpr (by linarith [h.2]))⟩,
      ⟨fun h => absurd h (by decide),
        fun h => absurd h1 (not_lt.mpr (by linarith))⟩⟩
  · exact ⟨⟨fun h => absurd h (by decide), fun h => absurd h h1⟩,
      ⟨fun _ => ⟨h2, not_lt.mp h1⟩, fun _ => rfl⟩,
      ⟨fun h => absurd h (by decide), fun h => absurd h2 (not_le.mpr h.2)⟩,
      ⟨fun h => absurd h (by decide),
        fun h => absurd h2 (not_le.mpr (by linarith))⟩⟩
  · exact ⟨⟨fun h => absurd h (by decide), fun h => absurd h h1⟩,
      ⟨fun h => absurd h (by decide), fun h => absurd h.1 h2⟩,
      ⟨fun _ => ⟨h3, not_le.mp h2⟩, fun _ => rfl⟩,
      ⟨fun h => absurd h (by decide), fun h => absurd h3 (not_le.mpr h)⟩⟩
  · exact ⟨⟨fun h => absurd h (by decide), fun h => absurd h h1⟩,
      ⟨fun h => absurd h (by decide), fun h => absurd h.1 h2⟩,
      ⟨fun h => absurd h (by decide), fun h => absurd h.1 h3⟩,
      ⟨fun _ => not_le.mp h3, fun _ => rfl⟩⟩

/-- Claim C5: in the workload report, `utilization_percent` equals
`current_load / max_capacity × 100`, and `workload_status` is exactly the
bucket of the utilization: `overloaded` iff > 100, `optimal` iff in [80, 100],
`good` iff in [50, 80), `underutilized` iff < 50. -/
theorem teacherWorkload_correct (T : List Assignment) (te : Teacher) :
    (teacherWorkloadOf T te).utilization_percent =
      ((teacherWorkloadOf T te).current_load : ℚ) /
        ((teacherWorkloadOf T te).max_capacity : ℚ) * 100 ∧
    ((teacherWorkloadOf T te).workload_status = .overloaded ↔
      100 < (teacherWorkloadOf T te).utilization_percent) ∧
    ((teacherWorkloadOf T te).workload_status = .optimal ↔
      80 ≤ (teacherWorkloadOf T te).utilization_percent ∧
        (teacherWorkloadOf T te).utilization_percent ≤ 100) ∧
    ((teacherWorkloadOf T te).workload_status = .good ↔
      50 ≤ (teacherWorkloadOf T te).utilization_percent ∧
        (teacherWorkloadOf T te).utilization_percent < 80) ∧
    ((teacherWorkloadOf T te).workload_status = .underutilized ↔
      (teacherWorkloadOf T te).utilization_percent < 50) := by
  obtain ⟨s1, s2, s3, s4⟩ :=
    workloadStatusOf_spec ((teacherLoad T te.id : ℚ) / (te.maxCredits : ℚ) * 100)
  exact ⟨rfl, s1, s2, s3, s4⟩

/-- One entry of a batch result: a timetable tagged with a variation index and
its score. -/
structure Variation where
  variation : Nat
  timetable : List Assignment
  score : ℚ
deriving DecidableEq, Repr

/-- Seed-derived slot ordering: rotate the slot list by the seed, so distinct
seeds explore slots in distinct orders. -/
def rotateSlots (seed : Nat) (slots : List Slot) : List Slot :=
  slots.drop (seed % slots.length) ++ slots.take (seed % slots.length)

/-- Modelled from the spec: the backend Variation Generator's per-seed run
(§4.6) is not under src/.  Each seed drives one engine run; the run is scored
by the Scorer. -/
def scoredRuns (teachers : List Teacher) (slots : List Slot)
    (units : List WorkUnit) (n : Nat) (seeds : List Nat) :
    List (List Assignment × ℚ) :=
  (seeds.take n).map (fun sd =>
    let T := generate teachers (rotateSlots sd slots) units
    (T, timetableScore teachers T))

/-- Insert a scored run into a list sorted by non-increasing score. -/
def insertDesc (x : List Assignment × ℚ) :
    List (List Assignment × ℚ) → List (List Assignment × ℚ)
  | [] => [x]
  | y :: ys => if y.2 ≤ x.2 then x :: y :: ys else y :: insertDesc x ys

/-- Sort scored runs by non-increasing score (insertion sort). -/
def sortDesc : List (List Assignment × ℚ) → List (List Assignment × ℚ)
  | [] => []
  | x :: xs => insertDesc x (sortDesc xs)

/-- Tag sorted runs with variation indices `k, k+1, …`. -/
def tagFrom : Nat → List (List Assignment × ℚ) → List Variation
  | _, [] => []
  | k, x :: xs => ⟨k, x.1, x.2⟩ :: tagFrom (k + 1) xs

/-- Modelled from the spec: the backend Variation Generator (§4.6) is not
under src/.  Runs the engine once per seed (up to `n` seeds), scores each run,
sorts descending by score, and tags each result with a variation index
starting at 1. -/
def generateBatch (teachers : List Teacher) (slots : List Slot)
    (units : List WorkUnit) (n : Nat) (seeds : List Nat) : List Variation :=
  tagFrom 1 (sortDesc (scoredRuns teachers slots units n seeds))

theorem length_insertDesc (x : List Assignment × ℚ)
    (l : List (List Assignment × ℚ)) :
    (insertDesc x l).length = l.length + 1 := by
  induction l with
  | nil => rfl
  | cons y ys ih =>
    unfold insertDesc
    split_ifs <;> simp [ih]

theorem length_sortDesc (l : List (List Assignment × ℚ)) :
    (sortDesc l).length = l.length := by
  induction l with
  | nil => rfl
  | cons x xs ih => simp [sortDesc, length_insertDesc, ih]

theorem mem_insertDesc {z x : List Assignment × ℚ}
    {l : List (List Assignment × ℚ)} (h : z ∈ insertDesc x l) :
    z = x ∨ z ∈ l := by
  induction l with
  | nil => simpa [insertDesc] using h
  | cons y ys ih =>
    unfold insertDesc at h
    split_ifs at h with hcmp
    · rcases List.mem_cons.mp h with h | h
      · exact Or.inl h
      · exact Or.inr h
    · rcases List.mem_cons.mp h with h | h
      · exact Or.inr (List.mem_cons.mpr (Or.inl h))
      · rcases ih h with h | h
        · exact Or.inl h
        · exact Or.inr (List.mem_cons.mpr (Or.inr h))

/-- Scores are pairwise non-increasing along the list. -/
def ScoreSortedDesc (l : List (List Assignment × ℚ)) : Prop :=
  List.Pairwise (fun x y => y.2 ≤ x.2) l

theorem scoreSortedDesc_insertDesc {x : List Assignment × ℚ}
    {l : List (List Assignment × ℚ)} (h : ScoreSortedDesc l) :
    ScoreSortedDesc (insertDesc x l) := by
  induction l with
  | nil => simp [insertDesc, ScoreSortedDesc]
  | cons y ys ih =>
    unfold ScoreSortedDesc at h ⊢
    rcases List.pairwise_cons.mp h with ⟨hy, hys⟩
    unfold insertDesc
    split_ifs with hcmp
    · refine List.pairwise_cons.mpr ⟨?_, h⟩
      intro z hz
      rcases List.mem_cons.mp hz with rfl | hz
      · exact hcmp
      · exact le_trans (hy z hz) hcmp
    · refine List.pairwise_cons.mpr ⟨?_, ih hys⟩
      intro z hz
      rcases mem_insertDesc hz with rfl | hz
      · exact le_of_not_le hcmp
      · exact hy z hz

theorem scoreSortedDesc_sortDesc (l : List (List Assignment × ℚ)) :
    ScoreSortedDesc (sortDesc l) := by
  induction l with
  | nil => exact List.Pairwise.nil
  | cons x xs ih => exact scoreSortedDesc_insertDesc ih

theorem length_tagFrom (k : Nat) (l : List (List Assignment × ℚ)) :
    (tagFrom k l).length = l.length := by
  induction l generalizing k with
  | nil => rfl
  | cons x xs ih => simp [tagFrom, ih]

theorem mem_tagFrom {v : Variation} {k : Nat}
    {l : List (List Assignment × ℚ)} (h : v ∈ tagFrom k l) :
    ∃ x ∈ l, v.score = x.2 := by
  induction l generalizing k with
  | nil => simp [tagFrom] at h
  | cons y ys ih =>
    unfold tagFrom at h
    rcases List.mem_cons.mp h with rfl | h
    · exact ⟨y, List.mem_cons_self y ys, rfl⟩
    · obtain ⟨x, hx, hs⟩ := ih h
      exact ⟨x, List.mem_cons_of_mem y hx, hs⟩

theorem pairwise_tagFrom {l : List (List Assignment × ℚ)} (k : Nat)
    (h : ScoreSortedDesc l) :
    List.Pairwise (fun v w => w.score ≤ v.score) (tagFrom k l) := by
  induction l generalizing k with
  | nil => exact List.Pairwise.nil
  | cons y ys ih =>
    rcases List.pairwise_cons.mp h with ⟨hy, hys⟩
    refine List.pairwise_cons.mpr ⟨?_, ih (k + 1) hys⟩
    intro w hw
    obtain ⟨x, hx, hs⟩ := mem_tagFrom hw
    simpa [hs] using hy x hx

theorem get_tagFrom (l : List (List Assignment × ℚ)) :
    ∀ (k i : Nat) (h : i < (tagFrom k l).length),
      ((tagFrom k l).get ⟨i, h⟩).variation = k + i := by
  induction l with
  | nil => intro k i h; simp [tagFrom] at h
  | cons y ys ih =>
    intro k i h
    cases i with
    | zero => rfl
    | succ j =>
      have hj : j < (tagFrom (k + 1) ys).length := by
        simpa [tagFrom] using Nat.lt_of_succ_lt_succ (by simpa [tagFrom] using h)
      have := ih (k + 1) j hj
      simpa [tagFrom, Nat.add_comm, Nat.add_assoc, Nat.add_left_comm] using this

/-- Claim C6: the variation generator called with N = 3 and a fixed seed set
returns exactly 3 timetables sorted by non-increasing score, tagged with
variation indices 1, 2, 3. -/
theorem generateBatch_three_sorted_tagged
    (teachers : List Teacher) (slots : List Slot) (units : List WorkUnit)
    (s1 s2 s3 : Nat) :
    (generateBatch teachers slots units 3 [s1, s2, s3]).length = 3 ∧
    List.Pairwise (fun v w => w.score ≤ v.score)
      (generateBatch teachers slots units 3 [s1, s2, s3]) ∧
    ∀ (i : Nat) (h : i < (generateBatch teachers slots units 3 [s1, s2, s3]).length),
      ((generateBatch teachers slots units 3 [s1, s2, s3]).get ⟨i, h⟩).variation = i + 1 := by
  refine ⟨?_, ?_, ?_⟩
  · unfold generateBatch
    rw [length_tagFrom, length_sortDesc]
    simp [scoredRuns]
  · exact pairwise_tagFrom 1 (scoreSortedDesc_sortDesc _)
  · intro i h
    unfold generateBatch at h ⊢
    rw [get_tagFrom _ 1 i h, Nat.add_comm]

/-- Witness for C6 at a concrete input (empty roster, seeds 0, 1, 2). -/
theorem generateBatch_three_sorted_tagged_witness :
    (generateBatch [] [] [] 3 [0, 1, 2]).length = 3 :=
  (generateBatch_three_sorted_tagged [] [] [] 0 1 2).1

/-- Phases of the generation request lifecycle (§4.7). -/
inductive GenPhase
  | pending
  | validatingInput
  | assigning
  | validatingOutput
  | scored
  | done
  | failed
deriving DecidableEq, Repr

/-- Error taxonomy relevant to input validation (§7). -/
inductive GenError
  | inputValidationError
deriving DecidableEq, Repr

/-- One generation request: raw entity snapshots plus derived work units and
the slot grid. -/
structure GenRequest where
  subjects : List Nat
  teachers : List Teacher
  classes : List Nat
  units : List WorkUnit
  slots : List Slot
deriving Repr

/-- Result record with the `status` discriminator of §6. -/
structure GenResult where
  status : String
  error : Option GenError
  timetable : Option (List Assignment)
deriving DecidableEq, Repr

/-- Modelled from the spec: the backend request pipeline (§4.2 Input
Normalizer, §4.7 lifecycle) is not under src/.  Input validation runs first;
with no subjects (or teachers, or classes) the request fails with
`InputValidationError` and never reaches the `ASSIGNING` phase; otherwise the
engine runs and the request completes. -/
def runGeneration (req : GenRequest) : List GenPhase × GenResult :=
  if req.subjects.isEmpty || req.teachers.isEmpty || req.classes.isEmpty then
    ([.pending, .validatingInput, .failed],
     { status := "error", error := some .inputValidationError, timetable := none })
  else
    ([.pending, .validatingInput, .assigning, .validatingOutput, .scored, .done],
     { status := "success", error := none,
       timetable := some (generate req.teachers req.slots req.units) })

/-- Claim C7: with zero subjects, generation returns status `"error"`,
produces no timetable, raises `InputValidationError`, and the lifecycle never
enters the slot-search (`ASSIGNING`) phase. -/
theorem empty_subjects_fail
    (req : GenRequest) (h : req.subjects = []) :
    (runGeneration req).2.status = "error" ∧
    (runGeneration req).2.timetable = none ∧
    (runGeneration req).2.error = some GenError.inputValidationError ∧
    GenPhase.assigning ∉ (runGeneration req).1 := by
  simp [runGeneration, h]

/-- Witness for C7 at a concrete request with an empty subject catalog. -/
theorem empty_subjects_fail_witness :
    (runGeneration ⟨[], [⟨0, 10⟩], [0], [⟨0, 0, [0]⟩], [⟨0, 1⟩]⟩).2.status = "error" ∧
    (runGeneration ⟨[], [⟨0, 10⟩], [0], [⟨0, 0, [0]⟩], [⟨0, 1⟩]⟩).2.timetable = none ∧
    (runGeneration ⟨[], [⟨0, 10⟩], [0], [⟨0, 0, [0]⟩], [⟨0, 1⟩]⟩).2.error =
      some GenError.inputValidationError ∧
    GenPhase.assigning ∉ (runGeneration ⟨[], [⟨0, 10⟩], [0], [⟨0, 0, [0]⟩], [⟨0, 1⟩]⟩).1 :=
  empty_subjects_fail ⟨[], [⟨0, 10⟩], [0], [⟨0, 0, [0]⟩], [⟨0, 1⟩]⟩ rfl

/-- Generation type selected on the generate page
(`GenerationPreferences.generation_type` in the generate page source). -/
inductive GenType
  | smart
  | custom
  | batch
deriving DecidableEq, Repr

/-- A variation as stored by the generate page's React state
(`TimetableVariation` in the generate page source): variation index, the raw
timetable payload, a teacher-workload map, and a score. -/
structure FrontVariation where
  variation : Nat
  timetable : Option Nat
  teacher_workload : List (String × ℚ)
  score : ℚ
deriving DecidableEq, Repr

/-- The response body of the generation endpoints as consumed by
`generateTimetable`: a status string, single-timetable payload `data`, and a
`variations` list for the batch endpoint. -/
structure ApiResponse where
  status : String
  payload : Option Nat
  variations : List FrontVariation
deriving DecidableEq, Repr

/-- The `variations` state after `generateTimetable(type)` processes a
response, translated from the generate page: state is cleared first; on
`status === "success"`, batch stores `data.variations`, while smart/custom
store the single hard-coded entry
`{variation: 1, timetable: data.data, teacher_workload: {}, score: 100}`;
on failure the cleared state remains. -/
def variationsAfterGenerate (ty : GenType) (resp : ApiResponse) :
    List FrontVariation :=
  if resp.status = "success" then
    if ty = GenType.batch then resp.variations
    else [{ variation := 1, timetable := resp.payload,
            teacher_workload := [], score := 100 }]
  else []

/-- Claim C8: every successful non-batch generation stores exactly one
variation, with index 1, an empty teacher-workload map, and the constant
score 100, regardless of the returned timetable payload. -/
theorem single_generation_stores_constant_score
    (ty : GenType) (resp : ApiResponse)
    (hty : ty ≠ GenType.batch) (hs : resp.status = "success") :
    variationsAfterGenerate ty resp =
      [{ variation := 1, timetable := resp.payload,
         teacher_workload := [], score := 100 }] := by
  unfold variationsAfterGenerate
  rw [if_pos hs, if_neg hty]

/-- Witness for C8: a successful smart-generation response with payload 42. -/
theorem single_generation_stores_constant_score_witness :
    variationsAfterGenerate GenType.smart ⟨"success", some 42, []⟩ =
      [{ variation := 1, timetable := some 42,
         teacher_workload := [], score := 100 }] :=
  single_generation_stores_constant_score GenType.smart ⟨"success", some 42, []⟩
    (by decide) rfl

/-- The days rendered by `PreviewCard` (`days` constant in the source). -/
def days : List String := ["Monday", "Tuesday", "Wednesday", "Thursday", "Friday"]

/-- The periods rendered by `PreviewCard` (`periods` constant in the source). -/
def periods : List Nat := [1, 2, 3, 4, 5, 6]

/-- Cell key builder, from `getCellKey` in `PreviewCard`:
`` `${day}-${period}` ``. -/
def getCellKey (day : String) (period : Nat) : String :=
  day ++ "-" ++ toString period

/-- A timetable entry as stored in the `timetableData` map; its content is
irrelevant to the grid-enumeration claim. -/
abbrev Entry := Nat

/-- The `timetableData` map: cell key to entry, keys unique as in a JS
object. -/
abbrev TimetableData := List (String × Entry)

/-- Map lookup, as `timetableData[key]` in the source. -/
def lookupTD (td : TimetableData) (k : String) : Option Entry :=
  (td.find? (fun p => p.1 == k)).map Prod.snd

/-- The cell keys enumerated by `PreviewCard`'s weekly grid, in render order:
the desktop grid iterates periods row by row and days within each row. -/
def gridCellKeys : List String :=
  (periods.map (fun p => days.map (fun d => getCellKey d p))).flatten

/-- The rendered grid: one cell per enumerated key, holding that key's
`timetableData` entry if present. -/
def renderedCells (td : TimetableData) : List (String × Option Entry) :=
  gridCellKeys.map (fun k => (k, lookupTD td k))

/-- Header statistic from `getTotalClasses` in `PreviewCard`:
`Object.keys(timetableData).length`, counting every key of the map. -/
def getTotalClasses (td : TimetableData) : Nat :=
  td.length

/-- Claim C9: the weekly grid enumerates exactly the keys `"{day}-{period}"`
for the five weekdays and periods 1–6; an entry stored under any other key is
rendered in no grid cell, yet `getTotalClasses` still counts it. -/
theorem previewCard_grid_enumeration
    (td : TimetableData) (k : String) (e : Entry)
    (hk : k ∉ gridCellKeys) :
    gridCellKeys =
      ["Monday-1", "Tuesday-1", "Wednesday-1", "Thursday-1", "Friday-1",
       "Monday-2", "Tuesday-2", "Wednesday-2", "Thursday-2", "Friday-2",
       "Monday-3", "Tuesday-3", "Wednesday-3", "Thursday-3", "Friday-3",
       "Monday-4", "Tuesday-4", "Wednesday-4", "Thursday-4", "Friday-4",
       "Monday-5", "Tuesday-5", "Wednesday-5", "Thursday-5", "Friday-5",
       "Monday-6", "Tuesday-6", "Wednesday-6", "Thursday-6", "Friday-6"] ∧
    (∀ c ∈ renderedCells td, c.1 ≠ k) ∧
    getTotalClasses ((k, e) :: td) = getTotalClasses td + 1 := by
  refine ⟨rfl, ?_, rfl⟩
  intro c hc
  obtain ⟨k', hk', rfl⟩ := List.mem_map.mp hc
  intro hcontra
  exact hk (hcontra ▸ hk')

/-- Witness for C9: a `"Saturday-1"` entry is counted but never rendered. -/
theorem previewCard_grid_enumeration_witness :
    (∀ c ∈ renderedCells [("Saturday-1", 7)], c.1 ≠ "Saturday-1") ∧
    getTotalClasses [("Saturday-1", 7), ("Monday-1", 3)] =
      getTotalClasses [("Monday-1", 3)] + 1 :=
  ⟨(previewCard_grid_enumeration [("Saturday-1", 7)] "Saturday-1" 7
      (by decide)).2.1,
   (previewCard_grid_enumeration [("Monday-1", 3)] "Saturday-1" 7
      (by decide)).2.2⟩

/-- `String.includes` checks from `escapeCsv`, over the underlying character
list. -/
def needsQuoting (s : List Char) : Bool :=
  s.contains ',' || s.contains '"' || s.contains '\n'

/-- The global replace step of `escapeCsv`: double every double-quote
character. -/
def doubleQuotes : List Char → List Char
  | [] => []
  | c :: rest =>
    if c = '"' then '"' :: '"' :: doubleQuotes rest
    else c :: doubleQuotes rest

/-- The CSV value escaper from `view.tsx` (`escapeCsv`), over the underlying
character list: a string containing a comma, double quote or newline is
wrapped in double quotes with internal quotes doubled; otherwise it is
returned unchanged. -/
def escapeCsv (s : List Char) : List Char :=
  if needsQuoting s then '"' :: (doubleQuotes s ++ ['"']) else s

/-- Undo quote doubling: every doubled-quote pair becomes a single quote. -/
def undoubleQuotes : List Char → List Char
  | [] => []
  | [c] => [c]
  | c :: d :: rest =>
    if c = '"' ∧ d = '"' then '"' :: undoubleQuotes rest
    else c :: undoubleQuotes (d :: rest)

/-- Standard CSV field parsing (RFC 4180), stated from the claim's reference
point rather than from the repository: a field wrapped in double quotes is
unwrapped and its doubled quotes collapsed; any other field stands for
itself. -/
def csvParseFieldStd (s : List Char) : List Char :=
  if 2 ≤ s.length ∧ s.head? = some '"' ∧ s.getLast? = some '"' then
    undoubleQuotes (s.drop 1).dropLast
  else s

theorem length_doubleQuotes_ge (s : List Char) :
    s.length ≤ (doubleQuotes s).length := by
  induction s with
  | nil => exact Nat.le_refl 0
  | cons c rest ih =>
    unfold doubleQuotes
    split_ifs <;> simp <;> omega

theorem undoubleQuotes_cons_ne {c : Char} (l : List Char) (hc : ¬c = '"') :
    undoubleQuotes (c :: l) = c :: undoubleQuotes l := by
  cases l with
  | nil => rfl
  | cons d ds =>
    conv_lhs => unfold undoubleQuotes
    rw [if_neg (fun h => hc h.1)]

theorem undouble_double (s : List Char) :
    undoubleQuotes (doubleQuotes s) = s := by
  induction s with
  | nil => rfl
  | cons c rest ih =>
    unfold doubleQuotes
    split_ifs with hc
    · subst hc
      unfold undoubleQuotes
      rw [if_pos ⟨rfl, rfl⟩, ih]
    · rw [undoubleQuotes_cons_ne _ hc, ih]

theorem needsQuoting_iff (v : List Char) :
    needsQuoting v = true ↔ (',' ∈ v ∨ '"' ∈ v ∨ '\n' ∈ v) := by
  simp [needsQuoting, or_assoc]

theorem csvParseFieldStd_of_no_quote {v : List Char} (h : '"' ∉ v) :
    csvParseFieldStd v = v := by
  unfold csvParseFieldStd
  rw [if_neg]
  rintro ⟨hlen, hhead, hlast⟩
  cases v with
  | nil => simp at hhead
  | cons c rest =>
    simp only [List.head?_cons, Option.some.injEq] at hhead
    exact h (hhead ▸ List.mem_cons_self c rest)

/-- Claim C10: `escapeCsv` returns its input unchanged exactly when the input
contains no comma, double quote, or newline; otherwise it wraps the input in
double quotes with internal quotes doubled, and standard CSV field parsing of
the escaped value recovers the original string. -/
theorem escapeCsv_roundtrip (v : List Char) :
    (escapeCsv v = v ↔ ¬(',' ∈ v ∨ '"' ∈ v ∨ '\n' ∈ v)) ∧
    ((',' ∈ v ∨ '"' ∈ v ∨ '\n' ∈ v) →
      escapeCsv v = '"' :: (doubleQuotes v ++ ['"'])) ∧
    csvParseFieldStd (escapeCsv v) = v := by
  have hlen := length_doubleQuotes_ge v
  refine ⟨⟨fun heq => ?_, fun hno => ?_⟩, fun hyes => ?_, ?_⟩
  · intro hmem
    rw [← needsQuoting_iff] at hmem
    unfold escapeCsv at heq
    rw [if_pos hmem] at heq
    have := congrArg List.length heq
    simp at this
    omega
  · unfold escapeCsv
    rw [if_neg (fun h => hno ((needsQuoting_iff v).mp h))]
  · unfold escapeCsv
    rw [if_pos ((needsQuoting_iff v).mpr hyes)]
  · unfold escapeCsv
    by_cases hq : needsQuoting v = true
    · rw [if_pos hq]
      unfold csvParseFieldStd
      rw [if_pos ⟨by simp, rfl, by
        rw [show ('"' :: (doubleQuotes v ++ ['"'])) =
          (('"' :: doubleQuotes v) ++ ['"']) from rfl]
        exact List.getLast?_concat _⟩]
      rw [show ('"' :: (doubleQuotes v ++ ['"'])).drop 1 =
        doubleQuotes v ++ ['"'] from rfl]
      rw [List.dropLast_concat, undouble_double]
    · rw [if_neg hq]
      apply csvParseFieldStd_of_no_quote
      intro hmem
      exact hq ((needsQuoting_iff v).mpr (Or.inr (Or.inl hmem)))

/-- Witness for C10 on a string containing a double quote. -/
theorem escapeCsv_roundtrip_witness :
    escapeCsv ['a', '"', 'b'] = '"' :: (doubleQuotes ['a', '"', 'b'] ++ ['"']) ∧
    csvParseFieldStd (escapeCsv ['a', '"', 'b']) = ['a', '"', 'b'] :=
  ⟨(escapeCsv_roundtrip ['a', '"', 'b']).2.1 (Or.inr (Or.inl (by decide))),
   (escapeCsv_roundtrip ['a', '"', 'b']).2.2⟩

end Phoenix
